import Mathlib

/-!
Shallow embedding of the syzkaller executor core (src/executor/executor.h)
and proofs about the frozen claims C1..C10.

Machine integers are modelled as `Nat` with explicit `% 2 ^ 32` / `% 2 ^ 64`
where the C code can wrap.  Fatal `fail(...)` paths are modelled as `none`.
Guest memory is modelled as a total function (the NONFAILING discipline makes
any value a possible read result; faults are out of scope of the claims).
-/

namespace Syz

/-! ### Constants (executor.h lines 24-43, 82-89, 126-162, 662) -/

def kMaxInput : Nat := 2 <<< 20
def kMaxOutput : Nat := 16 <<< 20
def kMaxArgs : Nat := 9
def kMaxThreads : Nat := 16
def kMaxCommands : Nat := 1000

/-- Number of 64-bit words that fit in the input buffer; `read_input` faults
at or beyond this word index. -/
def inputWords : Nat := kMaxInput / 8

def instr_eof : Nat := 2 ^ 64 - 1
def instr_copyin : Nat := 2 ^ 64 - 2
def instr_copyout : Nat := 2 ^ 64 - 3

def arg_const : Nat := 0
def arg_result : Nat := 1
def arg_data : Nat := 2
def arg_csum : Nat := 3

def no_copyout : Nat := 2 ^ 64 - 1

/-- `default_value = (uint64)-1` (executor.h line 82). -/
def default_value : Nat := 2 ^ 64 - 1

def arg_csum_inet : Nat := 0
def arg_csum_chunk_data : Nat := 0
def arg_csum_chunk_const : Nat := 1

def dedup_table_size : Nat := 8 <<< 10

/-- Pointwise update of a table modelled as a function. -/
def upd {α : Type} (f : Nat → α) (i : Nat) (v : α) : Nat → α :=
  fun j => if j = i then v else f j

/-! ### Result table (executor.h lines 119-124) -/

/-- One slot of the result table: `struct res_t { bool executed; uint64_t val; }`. -/
structure res_t where
  executed : Bool
  val : Nat

/-! ### Input stream (executor.h lines 766-774, `read_input`) -/

/-- `read_input(&pos, peek)`: returns the word at the cursor and the new cursor;
`none` models the fatal `input command overflows input`.  The program buffer is
the word list `prog`, words past its end read as zero (uninitialised buffer
tail; the claims only exercise in-bounds programs). -/
def read_input (prog : List Nat) (pos : Nat) (peek : Bool := false) : Option (Nat × Nat) :=
  if inputWords ≤ pos then none
  else some (prog.getD pos 0, if peek then pos else pos + 1)

/-! ### Argument resolution for result descriptors (executor.h lines 749-764) -/

/-- `read_result`, after its three `read_input` calls have produced
`idx`, `op_div`, `op_add` (lines 754-763): fatal when `idx >= kMaxCommands`;
otherwise the recorded value postprocessed by divide (skipped when zero)
and wrapping add, or `default_value` when the slot was never executed. -/
def read_result (results : Nat → res_t) (idx op_div op_add : Nat) : Option Nat :=
  if kMaxCommands ≤ idx then none
  else if (results idx).executed then
    let arg := (results idx).val
    let arg := if op_div ≠ 0 then arg / op_div else arg
    some ((arg + op_add) % 2 ^ 64)
  else some default_value

/-! ### Signal hash (executor.h lines 652-660) -/

/-- The scalar mix `hash` (operating on `uint32_t`; callers pass values
`< 2 ^ 32`). -/
def hash (a : Nat) : Nat :=
  let a1 := (a ^^^ 61) ^^^ (a >>> 16)
  let a2 := (a1 + (a1 <<< 3)) % 2 ^ 32
  let a3 := a2 ^^^ (a2 >>> 4)
  let a4 := (a3 * 0x27d4eb2d) % 2 ^ 32
  a4 ^^^ (a4 >>> 15)

/-- Formalisation of the spec sentence (section 4.7): the same five steps with
every intermediate reduced modulo `2 ^ 32` (the spec states the mix over 32-bit
values). -/
def hash_spec (a : Nat) : Nat :=
  let a1 := ((a ^^^ 61) ^^^ (a >>> 16)) % 2 ^ 32
  let a2 := (a1 + a1 * 8) % 2 ^ 32
  let a3 := (a2 ^^^ (a2 >>> 4)) % 2 ^ 32
  let a4 := (a3 * 0x27d4eb2d) % 2 ^ 32
  (a4 ^^^ (a4 >>> 15)) % 2 ^ 32

/-! ### Dedup table (executor.h lines 662-681) -/

/-- The `for (i = 0; i < 4; i++)` probe loop of `dedup`; the `[]` case is the
post-loop lossy overwrite `dedup_table[sig % dedup_table_size] = sig`. -/
def dedup_loop (t : Nat → Nat) (sig : Nat) : List Nat → Bool × (Nat → Nat)
  | [] => (false, upd t (sig % dedup_table_size) sig)
  | i :: rest =>
    let pos := (sig + i) % dedup_table_size
    if t pos = sig then (true, t)
    else if t pos = 0 then (false, upd t pos sig)
    else dedup_loop t sig rest

/-- `dedup(sig)` over an explicit table state: returns the duplicate flag and
the updated table. -/
def dedup (t : Nat → Nat) (sig : Nat) : Bool × (Nat → Nat) :=
  dedup_loop t sig [0, 1, 2, 3]

/-- Formalisation of the spec sentence (section 4.7 and claim C3): probe the
four slots in order, decide at the first slot that holds `s` or is empty, and
fall back to overwriting slot `s mod size`. -/
def dedup_probe_spec (t : Nat → Nat) (s : Nat) : Bool × (Nat → Nat) :=
  match (List.range 4).find? (fun i => t ((s + i) % dedup_table_size) = s
      || t ((s + i) % dedup_table_size) = 0) with
  | some i =>
    if t ((s + i) % dedup_table_size) = s then (true, t)
    else (false, upd t ((s + i) % dedup_table_size) s)
  | none => (false, upd t (s % dedup_table_size) s)

/-! ### Guest memory reads: `copyout` (executor.h lines 703-723) -/

/-- `copyout(addr, size)`: bounded guest-memory read.  `mem` gives the raw
value read at an address for a given access width (faults already folded in by
the NONFAILING discipline); the result is truncated to `size` bytes.  `none`
models the fatal `copyout: bad argument size`. -/
def copyout (mem : Nat → Nat → Nat) (addr size : Nat) : Option Nat :=
  if size = 1 ∨ size = 2 ∨ size = 4 ∨ size = 8 then
    some (mem addr size % 2 ^ (8 * size))
  else none

/-! ### Completion-time copyout run (executor.h lines 495-514) -/

/-- The `for (bool done = false; !done;)` loop of `handle_completion` that
consumes the run of `COPYOUT` records following a completed call, driven by the
slot's own cursor `copyout_pos`.  Returns the updated result table and the
final cursor; `none` models the fatal paths (input overflow, bad copyout size,
result index out of range). -/
def handle_copyouts (prog : List Nat) (mem : Nat → Nat → Nat)
    (results : Nat → res_t) (pos : Nat) : Option ((Nat → res_t) × Nat) :=
  match h1 : read_input prog pos with
  | none => none
  | some (instr, pos1) =>
    if instr = instr_copyout then
      match h2 : read_input prog pos1 with
      | none => none
      | some (index, pos2) =>
        match h3 : read_input prog pos2 with
        | none => none
        | some (addr, pos3) =>
          match h4 : read_input prog pos3 with
          | none => none
          | some (size, pos4) =>
            match copyout mem addr size with
            | none => none
            | some val =>
              if kMaxCommands ≤ index then none
              else handle_copyouts prog mem (upd results index ⟨true, val⟩) pos4
    else some (results, pos1)
termination_by inputWords - pos
decreasing_by
  have key : ∀ p w q : Nat, read_input prog p = some (w, q) → p < inputWords ∧ q = p + 1 := by
    intro p w q hpq
    simp only [read_input, Bool.false_eq_true, if_false] at hpq
    split at hpq
    · exact Option.noConfusion hpq
    · next hlt =>
      injection hpq with hpq1
      injection hpq1 with hpq2 hpq3
      exact ⟨Nat.lt_of_not_le hlt, hpq3.symm⟩
  obtain ⟨b1, e1⟩ := key _ _ _ h1
  obtain ⟨b2, e2⟩ := key _ _ _ h2
  obtain ⟨b3, e3⟩ := key _ _ _ h3
  obtain ⟨b4, e4⟩ := key _ _ _ h4
  subst e1
  subst e2
  subst e3
  subst e4
  exact Nat.sub_lt_sub_left
    (Nat.lt_of_succ_lt (Nat.lt_of_succ_lt (Nat.lt_of_succ_lt b4)))
    (Nat.lt_succ_of_lt (Nat.lt_succ_of_lt (Nat.lt_succ_of_lt (Nat.lt_succ_self pos))))

/-! ### Inet checksum copyin (executor.h lines 334-377) -/

/-- One parsed checksum chunk triple `(chunk_kind, chunk_value, chunk_size)`. -/
structure csum_chunk where
  kind : Nat
  value : Nat
  size : Nat

/-- Modelled from the spec: the one's-complement Internet checksum accumulator
(`csum_inet_init` / `csum_inet_update` live in the repo's OS support header,
which is not under src/).  Section 4.4: chunks are hashed as byte strings into
a running Internet checksum. -/
def csum_inet_update (acc : Nat) (bytes : List Nat) : Nat :=
  acc + (csum_words bytes).sum
where
  /-- Group bytes into big-endian 16-bit words, padding a trailing odd byte. -/
  csum_words : List Nat → List Nat
    | [] => []
    | [b] => [(b % 2 ^ 8) * 2 ^ 8]
    | b1 :: b2 :: rest => ((b1 % 2 ^ 8) * 2 ^ 8 + b2 % 2 ^ 8) :: csum_words rest

/-- Modelled from the spec: the final 16-bit one's-complement digest
(`csum_inet_digest`, not under src/): fold the carries back in and
complement. -/
def csum_inet_digest (acc : Nat) : Nat :=
  let s1 := acc % 2 ^ 16 + acc / 2 ^ 16
  let s2 := s1 % 2 ^ 16 + s1 / 2 ^ 16
  (2 ^ 16 - 1) - s2 % 2 ^ 16

/-- Bytes contributed by a data chunk: `size` guest bytes starting at the
chunk value (an address), read under NONFAILING. -/
def chunk_data_bytes (mem : Nat → Nat) (addr size : Nat) : List Nat :=
  (List.range size).map (fun i => mem (addr + i) % 2 ^ 8)

/-- Bytes contributed by a const chunk: the first `size` bytes of the 64-bit
value as laid out in (little-endian) host memory; the generator pre-swapped
the value so that these bytes arrive big-endian (comment at line 362). -/
def chunk_const_bytes (value size : Nat) : List Nat :=
  (List.range size).map (fun i => (value >>> (8 * i)) % 2 ^ 8)

/-- The `for (chunk = 0; chunk < chunks_num; chunk++)` loop of the
`arg_csum_inet` case (lines 349-369): accumulate chunks, `none` on the fatal
paths (bad const chunk size, bad chunk kind). -/
def interp_csum_inet_chunks (mem : Nat → Nat) (acc : Nat) :
    List csum_chunk → Option Nat
  | [] => some acc
  | c :: rest =>
    if c.kind = arg_csum_chunk_data then
      interp_csum_inet_chunks mem
        (csum_inet_update acc (chunk_data_bytes mem c.value c.size)) rest
    else if c.kind = arg_csum_chunk_const then
      if c.size ≠ 2 ∧ c.size ≠ 4 ∧ c.size ≠ 8 then none
      else interp_csum_inet_chunks mem
        (csum_inet_update acc (chunk_const_bytes c.value c.size)) rest
    else none

/-- The `arg_csum` case of `execute_one` (lines 334-377) with the chunk
triples already read from the stream: fatal (`none`) unless the kind is inet,
the destination size is exactly 2, and every chunk is well-formed; otherwise
returns the 16-bit digest that is then stored by `copyin(csum_addr, v, 2)`. -/
def interp_csum (mem : Nat → Nat) (csum_size csum_kind : Nat)
    (chunks : List csum_chunk) : Option Nat :=
  if csum_kind = arg_csum_inet then
    if csum_size ≠ 2 then none
    else (interp_csum_inet_chunks mem 0 chunks).map csum_inet_digest
  else none

/-! ### Signal emission (executor.h lines 542-555) -/

/-- The signal-writing loop of `handle_completion` (the `else` branch when
comparisons are not collected): for each coverage word take the low 32 bits,
xor with the accumulator, step the accumulator through `hash`, and emit the
signal unless `dedup` says it was seen.  Returns the emitted signal words in
order, the `nsig` counter, and the final dedup table. -/
def write_signals (t : Nat → Nat) (prev : Nat) :
    List Nat → List Nat × Nat × (Nat → Nat)
  | [] => ([], 0, t)
  | w :: ws =>
    let pc := w % 2 ^ 32
    let sig := pc ^^^ prev
    let r := dedup t sig
    let rest := write_signals r.2 (hash pc) ws
    if r.1 then rest else (sig :: rest.1, rest.2.1 + 1, rest.2.2)

/-- Formalisation of the spec sentence (section 4.6, claim C2): the raw signal
sequence, `sig_i = low32(pc_i) XOR prev_i` with `prev_0 = 0` and
`prev_{i+1} = hash(low32(pc_i))`. -/
def sig_sequence (prev : Nat) : List Nat → List Nat
  | [] => []
  | w :: ws => ((w % 2 ^ 32) ^^^ prev) :: sig_sequence (hash (w % 2 ^ 32)) ws

/-- Formalisation of the spec sentence (claim C2): keep exactly the signals on
which `dedup` returns false, threading the table state. -/
def dedup_filter (t : Nat → Nat) : List Nat → List Nat × (Nat → Nat)
  | [] => ([], t)
  | s :: ss =>
    let r := dedup t s
    let rest := dedup_filter r.2 ss
    if r.1 then rest else (s :: rest.1, rest.2)

/-! ### Comparison records (executor.h lines 155-174, 776-828) -/

def KCOV_CMP_CONST : Nat := 1
def KCOV_CMP_SIZE1 : Nat := 0
def KCOV_CMP_SIZE2 : Nat := 2
def KCOV_CMP_SIZE4 : Nat := 4
def KCOV_CMP_SIZE8 : Nat := 6
def KCOV_CMP_SIZE_MASK : Nat := 6

/-- `struct kcov_comparison_t { uint64_t type, arg1, arg2, pc; }`. -/
structure kcov_comparison_t where
  type : Nat
  arg1 : Nat
  arg2 : Nat
  pc : Nat

/-- `kcov_comparison_t::operator<` (lines 820-828): lexicographic on
`(type, arg1, arg2)`, pc not inspected. -/
def kcov_lt (a b : kcov_comparison_t) : Bool :=
  if a.type ≠ b.type then a.type < b.type
  else if a.arg1 ≠ b.arg1 then a.arg1 < b.arg1
  else a.arg2 < b.arg2

/-- The not-greater ordering induced by `kcov_lt`, used to model `std::sort`
with a merge sort. -/
def kcov_le (a b : kcov_comparison_t) : Bool := ! kcov_lt b a

/-- `kcov_comparison_t::operator==` (lines 814-818): pc deliberately not
compared. -/
def kcov_eq (a b : kcov_comparison_t) : Bool :=
  a.type == b.type && a.arg1 == b.arg1 && a.arg2 == b.arg2

/-- Translation of the C cast chain `(uint64_t)(int64_t)(intN_t)v` for
`N = 8 * bytes` bits: truncate to the low bits and sign-extend to 64. -/
def sign_cast (bytes v : Nat) : Nat :=
  let low := v % 2 ^ (8 * bytes)
  if low < 2 ^ (8 * bytes - 1) then low else 2 ^ 64 - 2 ^ (8 * bytes) + low

/-- Formalisation of the spec sentence (claim C6): sign extension by way of a
signed reinterpretation — read the low `bits` as a two's-complement integer,
then re-encode it as a 64-bit word. -/
def to_signed (bits : Nat) (v : Nat) : Int :=
  let m := (v : Int) % (2 ^ bits : Nat)
  if m < ((2 ^ (bits - 1) : Nat) : Int) then m else m - ((2 ^ bits : Nat) : Int)

/-- Formalisation of the spec sentence (claim C6), continued. -/
def sext_spec (bits : Nat) (v : Nat) : Nat :=
  (to_signed bits v % ((2 ^ 64 : Nat) : Int)).toNat

/-- `kcov_comparison_t::write` (lines 776-812): the 32-bit words appended to
the output for one record. -/
def kcov_write (c : kcov_comparison_t) : List Nat :=
  let w0 := c.type % 2 ^ 32
  let sz := c.type &&& KCOV_CMP_SIZE_MASK
  let a1 := if sz = KCOV_CMP_SIZE1 then sign_cast 1 c.arg1
    else if sz = KCOV_CMP_SIZE2 then sign_cast 2 c.arg1
    else if sz = KCOV_CMP_SIZE4 then sign_cast 4 c.arg1
    else c.arg1
  let a2 := if sz = KCOV_CMP_SIZE1 then sign_cast 1 c.arg2
    else if sz = KCOV_CMP_SIZE2 then sign_cast 2 c.arg2
    else if sz = KCOV_CMP_SIZE4 then sign_cast 4 c.arg2
    else c.arg2
  if sz ≠ KCOV_CMP_SIZE8 then [w0, a1 % 2 ^ 32, a2 % 2 ^ 32]
  else [w0, a1 % 2 ^ 32, (a1 >>> 32) % 2 ^ 32, a2 % 2 ^ 32, (a2 >>> 32) % 2 ^ 32]

/-- `std::unique`: drop each element equal (under `eq`) to its surviving
predecessor, keeping the first element of every run. -/
def uniq_adjacent {α : Type} (eq : α → α → Bool) : List α → List α
  | [] => []
  | [x] => [x]
  | x :: y :: rest =>
    if eq x y then uniq_adjacent eq (x :: rest) else x :: uniq_adjacent eq (y :: rest)

/-! ### Worker slot state machine (executor.h lines 447-487, 583) -/

/-- The slot-state part of `schedule_call` (lines 465-477) on the chosen
slot's `(ready, done, handled)` triple: fatal (`none`) unless ready is clear,
done is set and handled is true; otherwise clear done, clear handled, set
ready. -/
def schedule_call_state (ready done handled : Bool) :
    Option (Bool × Bool × Bool) :=
  if ready || !done || !handled then none
  else some (true, false, false)

/-- The slot-state part of `handle_completion` (lines 485-487 and 583): fatal
(`none`) unless done is set, ready is clear and handled is false; on exit
handled is true (ready and done are not touched here). -/
def handle_completion_state (ready done handled : Bool) :
    Option (Bool × Bool × Bool) :=
  if ready || !done || handled then none
  else some (ready, done, true)

/-! ### Completion output records (executor.h lines 516-582) -/

/-- What the interpreter does after scheduling a call. -/
inductive WaitAction where
  | noWait
  | threadedWait
  | syncExec

/-- `schedule_call(call_index++, ...)`: the scheduled call gets the current
counter value, and the counter the subsequent parity test sees is the
incremented one. -/
def schedule_step (call_index : Nat) : Nat × Nat :=
  (call_index, call_index + 1)

/-- The branch at lines 407-437: `if (collide && (call_index % 2) == 0)` skip
waiting entirely, `else if (flag_threaded)` do the timed wait plus sweep,
`else` execute synchronously.  `call_index` here is the post-increment
value. -/
def wait_action (collide flag_threaded : Bool) (call_index : Nat) : WaitAction :=
  if collide && (call_index % 2 == 0) then .noWait
  else if flag_threaded then .threadedWait
  else .syncExec

/-- The fatal conditions of the checksum interpreter, per chunk: a kind that
is neither data nor const, or a const chunk whose size is not 2, 4 or 8. -/
def bad_chunk (c : csum_chunk) : Prop :=
  (c.kind ≠ arg_csum_chunk_data ∧ c.kind ≠ arg_csum_chunk_const) ∨
  (c.kind = arg_csum_chunk_const ∧ c.size ≠ 2 ∧ c.size ≠ 4 ∧ c.size ≠ 8)

instance (c : csum_chunk) : Decidable (bad_chunk c) := by
  unfold bad_chunk; infer_instance

/-! ## Theorems -/

/-- Claim C1: a `result(idx, div, add)` descriptor is fatal when
`idx >= kMaxCommands = 1000`; otherwise, when `results[idx].executed`, it
resolves to the recorded value divided by `div` (divide skipped when
`div = 0`) plus `add` (64-bit wrap), and when not executed it resolves to
`default_value = (uint64)-1` with neither the divide nor the add applied. -/
theorem read_result_correct (results : Nat → res_t) (idx op_div op_add : Nat) :
    (kMaxCommands ≤ idx → read_result results idx op_div op_add = none)
    ∧ (idx < kMaxCommands → (results idx).executed = true →
        read_result results idx op_div op_add =
          some (((if op_div ≠ 0 then (results idx).val / op_div
                  else (results idx).val) + op_add) % 2 ^ 64))
    ∧ (idx < kMaxCommands → (results idx).executed = false →
        read_result results idx op_div op_add = some default_value)
    ∧ default_value = 2 ^ 64 - 1 := by
  refine ⟨fun h => ?_, fun h1 h2 => ?_, fun h1 h2 => ?_, rfl⟩
  · simp [read_result, h]
  · simp [read_result, Nat.not_le.mpr h1, h2]
  · simp [read_result, Nat.not_le.mpr h1, h2]

/-- Witness for C1, the spec's own example: `results[0] = {executed, 10}`,
descriptor `result(0, div = 2, add = 1)` resolves to 6. -/
theorem read_result_correct_witness :
    read_result (fun _ => ⟨true, 10⟩) 0 2 1 = some 6 := by
  have h := (read_result_correct (fun _ => ⟨true, 10⟩) 0 2 1).2.1
    (by norm_num [kMaxCommands]) rfl
  norm_num at h
  exact h

/-- Claim C8: `schedule_call` aborts unless the chosen slot has ready clear,
done set and handled true, and leaves it with ready set, done clear, handled
false; `handle_completion` aborts unless done is set, ready clear and handled
false, and sets handled true on exit. -/
theorem slot_state_machine_correct (ready done handled : Bool) :
    (schedule_call_state ready done handled =
        if ready = false ∧ done = true ∧ handled = true
        then some (true, false, false) else none)
    ∧ (handle_completion_state ready done handled =
        if ready = false ∧ done = true ∧ handled = false
        then some (false, true, true) else none) := by
  cases ready <;> cases done <;> cases handled <;>
    simp [schedule_call_state, handle_completion_state]

/-- Witness for C8: the only slot state `schedule_call` accepts, and where it
leaves the slot. -/
theorem slot_state_machine_correct_witness :
    schedule_call_state false true true = some (true, false, false) := by
  have h := (slot_state_machine_correct false true true).1
  simpa using h

/-- Claim C5: with the internal collide flag set, a call scheduled with
0-based index `i` (the parity test in the source runs on the
post-incremented counter) skips waiting entirely exactly when `i` is odd;
even-index calls take the normal threaded wait path. -/
theorem collide_skip_correct (ft : Bool) (i : Nat) :
    (wait_action true ft (schedule_step i).2 = .noWait ↔ i % 2 = 1)
    ∧ (i % 2 = 0 → wait_action true true (schedule_step i).2 = .threadedWait)
    ∧ (∀ c : Nat, wait_action false true c = .threadedWait) := by
  refine ⟨?_, fun h => ?_, fun c => rfl⟩
  · show wait_action true ft (i + 1) = .noWait ↔ i % 2 = 1
    unfold wait_action
    by_cases hp : (i + 1) % 2 = 0
    · rw [hp, if_pos (show (true && ((0 : Nat) == 0)) = true from rfl)]
      constructor
      · intro _
        exact Nat.succ_mod_two_eq_zero_iff.mp hp
      · intro _
        rfl
    · have hb : (true && ((i + 1) % 2 == 0)) = false := by
        rw [Bool.true_and]
        exact beq_eq_false_iff_ne.mpr hp
      rw [if_neg (by rw [hb]; exact Bool.false_ne_true)]
      constructor
      · intro hw
        cases ft
        · exact WaitAction.noConfusion hw
        · exact WaitAction.noConfusion hw
      · intro hm
        exact absurd (Nat.succ_mod_two_eq_zero_iff.mpr hm) hp
  · show wait_action true true (i + 1) = .threadedWait
    unfold wait_action
    have hp : (i + 1) % 2 = 1 := Nat.succ_mod_two_eq_one_iff.mpr h
    have hb : (true && ((i + 1) % 2 == 0)) = false := by
      rw [Bool.true_and, hp]
      rfl
    rw [if_neg (by rw [hb]; exact Bool.false_ne_true),
      if_pos (show (true : Bool) = true from rfl)]

/-- Witness for C5: call 1 (odd) is not awaited, call 2 (even) is. -/
theorem collide_skip_correct_witness :
    wait_action true true (schedule_step 1).2 = .noWait
    ∧ wait_action true true (schedule_step 2).2 = .threadedWait :=
  ⟨(collide_skip_correct true 1).1.mpr rfl, (collide_skip_correct true 2).2.1 rfl⟩

/-- The chunk loop is fatal exactly when some chunk is bad. -/
theorem interp_csum_inet_chunks_none_iff (mem : Nat → Nat) (acc : Nat)
    (chunks : List csum_chunk) :
    interp_csum_inet_chunks mem acc chunks = none ↔ ∃ c ∈ chunks, bad_chunk c := by
  induction chunks generalizing acc with
  | nil => simp [interp_csum_inet_chunks]
  | cons c rest ih =>
    simp only [interp_csum_inet_chunks]
    split_ifs with h1 h2 h3
    · have hnb : ¬ bad_chunk c := by
        simp [bad_chunk, h1, arg_csum_chunk_data, arg_csum_chunk_const]
      simp [ih, hnb]
    · have hb : bad_chunk c := Or.inr ⟨h2, h3⟩
      simp [hb]
    · have hnb : ¬ bad_chunk c := by
        rintro (⟨-, hne⟩ | ⟨-, hs⟩)
        · exact hne h2
        · exact h3 hs
      simp [ih, hnb]
    · have hb : bad_chunk c := Or.inl ⟨h1, h2⟩
      simp [hb]

/-- Claim C9: the inet-checksum copyin is fatal exactly when the destination
size is not 2 bytes, the checksum kind is not inet, some chunk kind is
neither data nor const, or a const chunk has a size other than 2, 4, 8. -/
theorem csum_fatal_iff (mem : Nat → Nat) (csum_size csum_kind : Nat)
    (chunks : List csum_chunk) :
    interp_csum mem csum_size csum_kind chunks = none ↔
      (csum_size ≠ 2 ∨ csum_kind ≠ arg_csum_inet ∨ ∃ c ∈ chunks, bad_chunk c) := by
  unfold interp_csum
  split_ifs with h1 h2
  · simp [h1, h2]
  · simp [h1, h2, Option.map_eq_none', interp_csum_inet_chunks_none_iff]
  · simp [h1]

/-- Witness for C9: a checksum descriptor of kind 1 (not inet) is fatal even
with a well-formed destination size and no chunks. -/
theorem csum_fatal_iff_witness :
    interp_csum (fun _ => 0) 2 1 [] = none :=
  (csum_fatal_iff (fun _ => 0) 2 1 []).mpr
    (Or.inr (Or.inl (by norm_num [arg_csum_inet])))

/-- `upd` reads back the written slot. -/
theorem upd_self {α : Type} (f : Nat → α) (i : Nat) (v : α) : upd f i v i = v := by
  simp [upd]

/-- `upd` leaves other slots alone. -/
theorem upd_ne {α : Type} (f : Nat → α) (i : Nat) (v : α) (j : Nat) (h : j ≠ i) :
    upd f i v j = f j := by
  simp [upd, h]

/-- One probe that finds the signal stops the loop with true. -/
theorem dedup_loop_found (t : Nat → Nat) (s i : Nat) (is : List Nat)
    (h : t ((s + i) % dedup_table_size) = s) :
    dedup_loop t s (i :: is) = (true, t) := by
  simp only [dedup_loop]
  rw [if_pos h]

/-- One probe that finds an empty slot stores the signal and stops with false. -/
theorem dedup_loop_store (t : Nat → Nat) (s i : Nat) (is : List Nat)
    (h1 : t ((s + i) % dedup_table_size) ≠ s)
    (h2 : t ((s + i) % dedup_table_size) = 0) :
    dedup_loop t s (i :: is) = (false, upd t ((s + i) % dedup_table_size) s) := by
  simp only [dedup_loop]
  rw [if_neg h1, if_pos h2]

/-- An occupied foreign probe is skipped. -/
theorem dedup_loop_skip (t : Nat → Nat) (s i : Nat) (is : List Nat)
    (h1 : t ((s + i) % dedup_table_size) ≠ s)
    (h2 : t ((s + i) % dedup_table_size) ≠ 0) :
    dedup_loop t s (i :: is) = dedup_loop t s is := by
  simp only [dedup_loop]
  rw [if_neg h1, if_neg h2]

/-- The probe loop decides at the first slot matching the signal or empty,
exactly as the spec's find-first description states. -/
theorem dedup_loop_eq_find (t : Nat → Nat) (s : Nat) (is : List Nat) :
    dedup_loop t s is =
      match is.find? (fun i => t ((s + i) % dedup_table_size) = s
          || t ((s + i) % dedup_table_size) = 0) with
      | some i =>
        if t ((s + i) % dedup_table_size) = s then (true, t)
        else (false, upd t ((s + i) % dedup_table_size) s)
      | none => (false, upd t (s % dedup_table_size) s) := by
  induction is with
  | nil => rfl
  | cons i rest ih =>
    by_cases h1 : t ((s + i) % dedup_table_size) = s
    · rw [dedup_loop_found t s i rest h1, List.find?_cons_of_pos _ (by simp [h1])]
      dsimp only
      rw [if_pos h1]
    · by_cases h2 : t ((s + i) % dedup_table_size) = 0
      · rw [dedup_loop_store t s i rest h1 h2,
          List.find?_cons_of_pos _ (by simp [h2])]
        dsimp only
        rw [if_neg h1]
      · rw [dedup_loop_skip t s i rest h1 h2,
          List.find?_cons_of_neg _ (by simp [h1, h2]), ih]

/-- Claim C10: a zero signal is suppressed by a fresh table without being
inserted, and `dedup` with signal 0 never stores a nonzero value: any slot it
changes is set to 0, the empty sentinel, so 0 never occupies the table.
A zero signal is exactly a PC whose low 32 bits equal the accumulator (the
hash of the previous PC). -/
theorem dedup_zero_correct (t : Nat → Nat) (p : Nat) :
    (dedup (fun _ => 0) 0 = (true, fun _ => 0))
    ∧ ((dedup t 0).2 p ≠ t p → (dedup t 0).2 p = 0)
    ∧ (∀ w prev : Nat, (w % 2 ^ 32) ^^^ prev = 0 ↔ w % 2 ^ 32 = prev) := by
  refine ⟨rfl, fun h => ?_, fun w prev => Nat.xor_eq_zero⟩
  simp only [dedup] at h ⊢
  by_cases h0 : t ((0 + 0) % dedup_table_size) = 0
  · rw [dedup_loop_found t 0 0 [1, 2, 3] h0] at h
    exact absurd rfl h
  rw [dedup_loop_skip t 0 0 [1, 2, 3] h0 h0] at h ⊢
  by_cases h1 : t ((0 + 1) % dedup_table_size) = 0
  · rw [dedup_loop_found t 0 1 [2, 3] h1] at h
    exact absurd rfl h
  rw [dedup_loop_skip t 0 1 [2, 3] h1 h1] at h ⊢
  by_cases h2 : t ((0 + 2) % dedup_table_size) = 0
  · rw [dedup_loop_found t 0 2 [3] h2] at h
    exact absurd rfl h
  rw [dedup_loop_skip t 0 2 [3] h2 h2] at h ⊢
  by_cases h3 : t ((0 + 3) % dedup_table_size) = 0
  · rw [dedup_loop_found t 0 3 [] h3] at h
    exact absurd rfl h
  rw [dedup_loop_skip t 0 3 [] h3 h3] at h ⊢
  simp only [dedup_loop] at h ⊢
  unfold upd at h ⊢
  split_ifs at h ⊢ with hp
  · rfl
  · exact absurd rfl h

/-- Witness for C10 on a saturated cluster: with every probed slot occupied,
`dedup 0` falls through to the overwrite, which writes only the sentinel 0
into slot 0. -/
theorem dedup_zero_correct_witness :
    (dedup (fun q => q + 1) 0).2 0 = 0 :=
  (dedup_zero_correct (fun q => q + 1) 0).2.1 (by decide)

/-- Claim C3: `dedup(s)` probes slots `(s+0)..(s+3)` mod 8192 in order,
returns true at the first probed slot holding `s`, stores `s` and returns
false at the first empty probed slot, and on four occupied foreign slots
overwrites slot `s mod 8192` and returns false; consequently an immediately
repeated `dedup(s)` after a false answer returns true. -/
theorem dedup_correct :
    (∀ (t : Nat → Nat) (s : Nat), dedup t s = dedup_probe_spec t s)
    ∧ (∀ (t : Nat → Nat) (s : Nat) (t2 : Nat → Nat),
        dedup t s = (false, t2) → (dedup t2 s).1 = true) := by
  constructor
  · intro t s
    have hr : List.range 4 = [0, 1, 2, 3] := rfl
    simp only [dedup, dedup_probe_spec, hr]
    exact dedup_loop_eq_find t s [0, 1, 2, 3]
  · intro t s t2 h
    have key : ∀ i j : Nat, i < 4 → j < 4 → i ≠ j →
        (s + i) % dedup_table_size ≠ (s + j) % dedup_table_size := by
      have hD : (4 : Nat) < dedup_table_size := by decide
      intro i j hi hj hij h
      have hm : Nat.ModEq dedup_table_size i j :=
        Nat.ModEq.add_left_cancel' s
          (show Nat.ModEq dedup_table_size (s + i) (s + j) from h)
      have hm2 : i % dedup_table_size = j % dedup_table_size := hm
      rw [Nat.mod_eq_of_lt (lt_trans hi hD), Nat.mod_eq_of_lt (lt_trans hj hD)] at hm2
      exact hij hm2
    simp only [dedup] at h ⊢
    by_cases h0s : t ((s + 0) % dedup_table_size) = s
    · rw [dedup_loop_found t s 0 [1, 2, 3] h0s] at h
      exact Bool.noConfusion (congrArg Prod.fst h)
    by_cases h00 : t ((s + 0) % dedup_table_size) = 0
    · rw [dedup_loop_store t s 0 [1, 2, 3] h0s h00] at h
      injection h with hb ht
      subst ht
      rw [dedup_loop_found _ s 0 [1, 2, 3] (upd_self t _ s)]
    rw [dedup_loop_skip t s 0 [1, 2, 3] h0s h00] at h
    by_cases h1s : t ((s + 1) % dedup_table_size) = s
    · rw [dedup_loop_found t s 1 [2, 3] h1s] at h
      exact Bool.noConfusion (congrArg Prod.fst h)
    by_cases h10 : t ((s + 1) % dedup_table_size) = 0
    · rw [dedup_loop_store t s 1 [2, 3] h1s h10] at h
      injection h with hb ht
      subst ht
      have u0 : upd t ((s + 1) % dedup_table_size) s ((s + 0) % dedup_table_size)
          = t ((s + 0) % dedup_table_size) :=
        upd_ne t _ s _ (key 0 1 (by decide) (by decide) (by decide))
      have w0s : upd t ((s + 1) % dedup_table_size) s ((s + 0) % dedup_table_size) ≠ s := by
        rw [u0]
        exact h0s
      have w00 : upd t ((s + 1) % dedup_table_size) s ((s + 0) % dedup_table_size) ≠ 0 := by
        rw [u0]
        exact h00
      rw [dedup_loop_skip _ s 0 [1, 2, 3] w0s w00,
        dedup_loop_found _ s 1 [2, 3] (upd_self t _ s)]
    rw [dedup_loop_skip t s 1 [2, 3] h1s h10] at h
    by_cases h2s : t ((s + 2) % dedup_table_size) = s
    · rw [dedup_loop_found t s 2 [3] h2s] at h
      exact Bool.noConfusion (congrArg Prod.fst h)
    by_cases h20 : t ((s + 2) % dedup_table_size) = 0
    · rw [dedup_loop_store t s 2 [3] h2s h20] at h
      injection h with hb ht
      subst ht
      have u0 : upd t ((s + 2) % dedup_table_size) s ((s + 0) % dedup_table_size)
          = t ((s + 0) % dedup_table_size) :=
        upd_ne t _ s _ (key 0 2 (by decide) (by decide) (by decide))
      have u1 : upd t ((s + 2) % dedup_table_size) s ((s + 1) % dedup_table_size)
          = t ((s + 1) % dedup_table_size) :=
        upd_ne t _ s _ (key 1 2 (by decide) (by decide) (by decide))
      have w0s : upd t ((s + 2) % dedup_table_size) s ((s + 0) % dedup_table_size) ≠ s := by
        rw [u0]
        exact h0s
      have w00 : upd t ((s + 2) % dedup_table_size) s ((s + 0) % dedup_table_size) ≠ 0 := by
        rw [u0]
        exact h00
      have w1s : upd t ((s + 2) % dedup_table_size) s ((s + 1) % dedup_table_size) ≠ s := by
        rw [u1]
        exact h1s
      have w10 : upd t ((s + 2) % dedup_table_size) s ((s + 1) % dedup_table_size) ≠ 0 := by
        rw [u1]
        exact h10
      rw [dedup_loop_skip _ s 0 [1, 2, 3] w0s w00, dedup_loop_skip _ s 1 [2, 3] w1s w10,
        dedup_loop_found _ s 2 [3] (upd_self t _ s)]
    rw [dedup_loop_skip t s 2 [3] h2s h20] at h
    by_cases h3s : t ((s + 3) % dedup_table_size) = s
    · rw [dedup_loop_found t s 3 [] h3s] at h
      exact Bool.noConfusion (congrArg Prod.fst h)
    by_cases h30 : t ((s + 3) % dedup_table_size) = 0
    · rw [dedup_loop_store t s 3 [] h3s h30] at h
      injection h with hb ht
      subst ht
      have u0 : upd t ((s + 3) % dedup_table_size) s ((s + 0) % dedup_table_size)
          = t ((s + 0) % dedup_table_size) :=
        upd_ne t _ s _ (key 0 3 (by decide) (by decide) (by decide))
      have u1 : upd t ((s + 3) % dedup_table_size) s ((s + 1) % dedup_table_size)
          = t ((s + 1) % dedup_table_size) :=
        upd_ne t _ s _ (key 1 3 (by decide) (by decide) (by decide))
      have u2 : upd t ((s + 3) % dedup_table_size) s ((s + 2) % dedup_table_size)
          = t ((s + 2) % dedup_table_size) :=
        upd_ne t _ s _ (key 2 3 (by decide) (by decide) (by decide))
      have w0s : upd t ((s + 3) % dedup_table_size) s ((s + 0) % dedup_table_size) ≠ s := by
        rw [u0]
        exact h0s
      have w00 : upd t ((s + 3) % dedup_table_size) s ((s + 0) % dedup_table_size) ≠ 0 := by
        rw [u0]
        exact h00
      have w1s : upd t ((s + 3) % dedup_table_size) s ((s + 1) % dedup_table_size) ≠ s := by
        rw [u1]
        exact h1s
      have w10 : upd t ((s + 3) % dedup_table_size) s ((s + 1) % dedup_table_size) ≠ 0 := by
        rw [u1]
        exact h10
      have w2s : upd t ((s + 3) % dedup_table_size) s ((s + 2) % dedup_table_size) ≠ s := by
        rw [u2]
        exact h2s
      have w20 : upd t ((s + 3) % dedup_table_size) s ((s + 2) % dedup_table_size) ≠ 0 := by
        rw [u2]
        exact h20
      rw [dedup_loop_skip _ s 0 [1, 2, 3] w0s w00, dedup_loop_skip _ s 1 [2, 3] w1s w10,
        dedup_loop_skip _ s 2 [3] w2s w20,
        dedup_loop_found _ s 3 [] (upd_self t _ s)]
    · rw [dedup_loop_skip t s 3 [] h3s h30] at h
      simp only [dedup_loop] at h
      injection h with hb ht
      subst ht
      have hz : (s + 0) % dedup_table_size = s % dedup_table_size := by
        rw [Nat.add_zero]
      have hfound : upd t (s % dedup_table_size) s ((s + 0) % dedup_table_size) = s := by
        rw [hz]
        exact upd_self t _ s
      rw [dedup_loop_found _ s 0 [1, 2, 3] hfound]

/-- Witness for C3: on a fresh table the first `dedup 7` stores 7 at slot 7
and returns false; the immediate second call returns true. -/
theorem dedup_correct_witness :
    (dedup (upd (fun _ => 0) 7 7) 7).1 = true :=
  dedup_correct.2 (fun _ => 0) 7 (upd (fun _ => 0) 7 7) rfl

/-- Claim C2: with comparisons off, the emitted signal list is the raw
signal sequence (low 32 PC bits xor the accumulated hash of the previous PC,
accumulator starting at 0) filtered by `dedup` returning false, the
back-patched `nsig` equals the number of appended signals, and `hash` is
exactly the specified five-step scalar mix over 32-bit values. -/
theorem signal_emission_correct :
    (∀ (t : Nat → Nat) (prev : Nat) (ws : List Nat),
        write_signals t prev ws =
          ((dedup_filter t (sig_sequence prev ws)).1,
           (dedup_filter t (sig_sequence prev ws)).1.length,
           (dedup_filter t (sig_sequence prev ws)).2))
    ∧ (∀ a : Nat, a < 2 ^ 32 → hash a = hash_spec a) := by
  constructor
  · intro t prev ws
    induction ws generalizing t prev with
    | nil => rfl
    | cons w ws ih =>
      simp only [write_signals, sig_sequence, dedup_filter]
      rw [ih]
      cases hr : (dedup t ((w % 2 ^ 32) ^^^ prev)).1 <;> simp [hr]
  · intro a ha
    have hsr : ∀ x k : Nat, x >>> k ≤ x := fun x k => by
      rw [Nat.shiftRight_eq_div_pow]
      exact Nat.div_le_self _ _
    have hmul : ∀ x : Nat, x <<< 3 = x * 8 := fun x => by
      rw [Nat.shiftLeft_eq]
    have h1 : ((a ^^^ 61) ^^^ (a >>> 16)) % 2 ^ 32 = (a ^^^ 61) ^^^ (a >>> 16) :=
      Nat.mod_eq_of_lt (Nat.xor_lt_two_pow (Nat.xor_lt_two_pow ha (by norm_num))
        (lt_of_le_of_lt (hsr a 16) ha))
    have h3 : ∀ x : Nat, x < 2 ^ 32 → (x ^^^ (x >>> 4)) % 2 ^ 32 = x ^^^ (x >>> 4) :=
      fun x hx => Nat.mod_eq_of_lt
        (Nat.xor_lt_two_pow hx (lt_of_le_of_lt (hsr x 4) hx))
    have h5 : ∀ x : Nat, x < 2 ^ 32 → (x ^^^ (x >>> 15)) % 2 ^ 32 = x ^^^ (x >>> 15) :=
      fun x hx => Nat.mod_eq_of_lt
        (Nat.xor_lt_two_pow hx (lt_of_le_of_lt (hsr x 15) hx))
    simp only [hash, hash_spec, hmul, h1]
    rw [h3 _ (Nat.mod_lt _ (by norm_num))]
    rw [h5 _ (Nat.mod_lt _ (by norm_num))]

/-- `read_input` succeeds below the buffer bound, consuming one word. -/
theorem read_input_some (prog : List Nat) (pos : Nat) (hpos : pos < inputWords) :
    read_input prog pos = some (prog.getD pos 0, pos + 1) := by
  simp [read_input, Nat.not_le.mpr hpos]

/-- On a non-COPYOUT word the copyout run stops, consuming that word. -/
theorem handle_copyouts_stop (prog : List Nat) (mem : Nat → Nat → Nat)
    (results : Nat → res_t) (pos : Nat) (hpos : pos < inputWords)
    (hstop : prog.getD pos 0 ≠ instr_copyout) :
    handle_copyouts prog mem results pos = some (results, pos + 1) := by
  rw [handle_copyouts]
  split
  · next heq =>
    rw [read_input_some prog pos hpos] at heq
    exact Option.noConfusion heq
  · next instr pos1 heq =>
    rw [read_input_some prog pos hpos] at heq
    injection heq with heq2
    injection heq2 with hinstr hpos1
    subst hinstr
    subst hpos1
    rw [if_neg hstop]

/-- On a COPYOUT word the run consumes the record (4 words), applies the
bounded read and index check, and continues at `pos + 4`. -/
theorem handle_copyouts_step (prog : List Nat) (mem : Nat → Nat → Nat)
    (results : Nat → res_t) (pos : Nat) (hpos : pos + 3 < inputWords)
    (hcp : prog.getD pos 0 = instr_copyout) :
    handle_copyouts prog mem results pos =
      match copyout mem (prog.getD (pos + 2) 0) (prog.getD (pos + 3) 0) with
      | none => none
      | some val =>
        if kMaxCommands ≤ prog.getD (pos + 1) 0 then none
        else handle_copyouts prog mem
            (upd results (prog.getD (pos + 1) 0) ⟨true, val⟩) (pos + 4) := by
  have hb2 : pos + 1 + 1 < inputWords := Nat.lt_of_succ_lt hpos
  have hb1 : pos + 1 < inputWords := Nat.lt_of_succ_lt hb2
  have hb0 : pos < inputWords := Nat.lt_of_succ_lt hb1
  rw [handle_copyouts]
  split
  · next heq =>
    rw [read_input_some prog pos hb0] at heq
    exact Option.noConfusion heq
  · next instr pos1 heq =>
    rw [read_input_some prog pos hb0] at heq
    injection heq with heq2
    injection heq2 with hinstr hpos1
    subst hinstr
    subst hpos1
    rw [if_pos hcp]
    split
    · next heq2 =>
      rw [read_input_some prog (pos + 1) hb1] at heq2
      exact Option.noConfusion heq2
    · next index pos2 heq2 =>
      rw [read_input_some prog (pos + 1) hb1] at heq2
      injection heq2 with heq2a
      injection heq2a with hidx hpos2
      subst hidx
      subst hpos2
      split
      · next heq3 =>
        rw [read_input_some prog (pos + 1 + 1) hb2] at heq3
        exact Option.noConfusion heq3
      · next addr pos3 heq3 =>
        rw [read_input_some prog (pos + 1 + 1) hb2] at heq3
        injection heq3 with heq3a
        injection heq3a with haddr hpos3
        subst haddr
        subst hpos3
        split
        · next heq4 =>
          rw [read_input_some prog (pos + 1 + 1 + 1) hpos] at heq4
          exact Option.noConfusion heq4
        · next size pos4 heq4 =>
          rw [read_input_some prog (pos + 1 + 1 + 1) hpos] at heq4
          injection heq4 with heq4a
          injection heq4a with hsize hpos4
          subst hsize
          subst hpos4
          rfl

/-- Claim C4 counterexample: on the program `[EOF]` at cursor 0 the copyout
run stops immediately, but the slot cursor ends at 1 — it has consumed the
terminating non-COPYOUT word, not peeked at it (the claim asserts the cursor
still points at the terminating word, i.e. 0). -/
theorem copyout_cursor_counterexample :
    handle_copyouts [instr_eof] (fun _ _ => 0) (fun _ => ⟨false, 0⟩) 0
      = some (fun _ => ⟨false, 0⟩, 1)
    ∧ (1 : Nat) ≠ 0 := by
  refine ⟨?_, by norm_num⟩
  rw [handle_copyouts_stop [instr_eof] (fun _ _ => 0) (fun _ => ⟨false, 0⟩) 0
    (by decide) (by norm_num [instr_eof, instr_copyout])]

/-- Claim C4 amended: the copyout run stops at the first word that is not
COPYOUT and consumes it — the slot cursor ends one word past the terminating
word, with the result table untouched by the stop; a COPYOUT word instead
consumes its three operands, records the read, and continues at the next
group.  (The main interpreter cursor is a separate value from the slot's
`copyout_pos` argument and is untouched by this loop.) -/
theorem copyout_cursor_amended :
    (∀ (prog : List Nat) (mem : Nat → Nat → Nat) (results : Nat → res_t) (pos : Nat),
        pos < inputWords → prog.getD pos 0 ≠ instr_copyout →
        handle_copyouts prog mem results pos = some (results, pos + 1))
    ∧ (∀ (prog : List Nat) (mem : Nat → Nat → Nat) (results : Nat → res_t) (pos : Nat),
        pos + 3 < inputWords → prog.getD pos 0 = instr_copyout →
        handle_copyouts prog mem results pos =
          match copyout mem (prog.getD (pos + 2) 0) (prog.getD (pos + 3) 0) with
          | none => none
          | some val =>
            if kMaxCommands ≤ prog.getD (pos + 1) 0 then none
            else handle_copyouts prog mem
                (upd results (prog.getD (pos + 1) 0) ⟨true, val⟩) (pos + 4)) :=
  ⟨fun prog mem results pos hpos hstop =>
      handle_copyouts_stop prog mem results pos hpos hstop,
   fun prog mem results pos hpos hcp =>
      handle_copyouts_step prog mem results pos hpos hcp⟩

/-- Witness for C4 amended, at the counterexample input: the run over `[EOF]`
from cursor 0 ends with cursor 1 and the results unchanged. -/
theorem copyout_cursor_amended_witness :
    handle_copyouts [instr_eof] (fun _ _ => 0) (fun _ => ⟨false, 0⟩) 0
      = some (fun _ => ⟨false, 0⟩, 0 + 1) :=
  copyout_cursor_amended.1 [instr_eof] (fun _ _ => 0) (fun _ => ⟨false, 0⟩) 0
    (by decide)
    (by norm_num [instr_eof, instr_copyout])

/-- `operator<` is the lexicographic order on `(type, arg1, arg2)`. -/
theorem kcov_lt_iff (a b : kcov_comparison_t) :
    kcov_lt a b = true ↔
      (a.type < b.type ∨ (a.type = b.type ∧
        (a.arg1 < b.arg1 ∨ (a.arg1 = b.arg1 ∧ a.arg2 < b.arg2)))) := by
  unfold kcov_lt
  split_ifs with h1 h2 <;> simp only [decide_eq_true_eq]
  · constructor
    · exact fun h => Or.inl h
    · rintro (h | ⟨he, -⟩)
      · exact h
      · exact absurd he h1
  · have he : a.type = b.type := not_not.mp h1
    constructor
    · exact fun h => Or.inr ⟨he, Or.inl h⟩
    · rintro (h | ⟨-, h | ⟨hq, -⟩⟩)
      · rw [he] at h
        exact absurd h (lt_irrefl _)
      · exact h
      · exact absurd hq h2
  · have he : a.type = b.type := not_not.mp h1
    have he2 : a.arg1 = b.arg1 := not_not.mp h2
    constructor
    · exact fun h => Or.inr ⟨he, Or.inr ⟨he2, h⟩⟩
    · rintro (h | ⟨-, h | ⟨-, h⟩⟩)
      · rw [he] at h
        exact absurd h (lt_irrefl _)
      · rw [he2] at h
        exact absurd h (lt_irrefl _)
      · exact h

/-- `operator==` compares exactly `(type, arg1, arg2)`, never `pc`. -/
theorem kcov_eq_iff (a b : kcov_comparison_t) :
    kcov_eq a b = true ↔ (a.type = b.type ∧ a.arg1 = b.arg1 ∧ a.arg2 = b.arg2) := by
  simp [kcov_eq, and_assoc]

theorem kcov_le_not_lt (a b : kcov_comparison_t) :
    kcov_le a b = true ↔ ¬ (kcov_lt b a = true) := by
  unfold kcov_le
  cases kcov_lt b a <;> simp

/-- The sort comparator is transitive. -/
theorem kcov_le_trans (a b c : kcov_comparison_t) :
    kcov_le a b = true → kcov_le b c = true → kcov_le a c = true := by
  intro hab hbc
  rw [kcov_le_not_lt, kcov_lt_iff] at hab hbc ⊢
  intro hca
  have t1 : ¬ b.type < a.type := fun x => hab (Or.inl x)
  have t2 : ¬ c.type < b.type := fun x => hbc (Or.inl x)
  have l1 : a.type ≤ b.type := Nat.le_of_not_lt t1
  have l2 : b.type ≤ c.type := Nat.le_of_not_lt t2
  rcases hca with h | ⟨he, h2⟩
  · exact absurd h (Nat.not_lt.mpr (le_trans l1 l2))
  · have hba : b.type = a.type := Nat.le_antisymm (by rw [← he]; exact l2) l1
    have hcb : c.type = b.type := by
      rw [hba, he]
    have a1 : ¬ (b.arg1 < a.arg1 ∨ (b.arg1 = a.arg1 ∧ b.arg2 < a.arg2)) :=
      fun x => hab (Or.inr ⟨hba, x⟩)
    have a2 : ¬ (c.arg1 < b.arg1 ∨ (c.arg1 = b.arg1 ∧ c.arg2 < b.arg2)) :=
      fun x => hbc (Or.inr ⟨hcb, x⟩)
    have u1 : ¬ b.arg1 < a.arg1 := fun x => a1 (Or.inl x)
    have u2 : ¬ c.arg1 < b.arg1 := fun x => a2 (Or.inl x)
    have m1 : a.arg1 ≤ b.arg1 := Nat.le_of_not_lt u1
    have m2 : b.arg1 ≤ c.arg1 := Nat.le_of_not_lt u2
    rcases h2 with h3 | ⟨he2, h4⟩
    · exact absurd h3 (Nat.not_lt.mpr (le_trans m1 m2))
    · have v1 : b.arg1 = a.arg1 := Nat.le_antisymm (by rw [← he2]; exact m2) m1
      have v2 : c.arg1 = b.arg1 := by
        rw [v1, he2]
      have w1 : ¬ b.arg2 < a.arg2 := fun x => a1 (Or.inr ⟨v1, x⟩)
      have w2 : ¬ c.arg2 < b.arg2 := fun x => a2 (Or.inr ⟨v2, x⟩)
      exact absurd h4 (Nat.not_lt.mpr
        (le_trans (Nat.le_of_not_lt w1) (Nat.le_of_not_lt w2)))

/-- The sort comparator is total. -/
theorem kcov_le_total (a b : kcov_comparison_t) :
    (kcov_le a b || kcov_le b a) = true := by
  have h1 := kcov_lt_iff a b
  have h2 := kcov_lt_iff b a
  unfold kcov_le
  cases hab : kcov_lt b a <;> cases hba : kcov_lt a b <;> simp_all <;> omega

/-- The cast chain `(uint64_t)(int64_t)(intN_t)` agrees with the signed
reinterpretation, for any operand width up to 64 bits. -/
theorem sign_cast_eq_sext_spec (b v : Nat) (hb : 0 < b) (hble : 8 * b ≤ 64) :
    sign_cast b v = sext_spec (8 * b) v := by
  unfold sign_cast sext_spec to_signed
  have hBpos : 0 < 2 ^ (8 * b) := Nat.pos_pow_of_pos _ (by norm_num)
  have hL : v % 2 ^ (8 * b) < 2 ^ (8 * b) := Nat.mod_lt _ hBpos
  have hBle : (2 : Nat) ^ (8 * b) ≤ 2 ^ 64 := Nat.pow_le_pow_right (by norm_num) hble
  have hcast : ((v % 2 ^ (8 * b) : Nat) : Int) = (v : Int) % ((2 ^ (8 * b) : Nat) : Int) := by
    push_cast
    ring
  rw [← hcast]
  dsimp only
  split_ifs with hn hi hi
  · rw [Int.emod_eq_of_lt (Int.natCast_nonneg _)
      (by exact_mod_cast lt_of_lt_of_le hL hBle)]
    exact (Int.toNat_natCast _).symm
  · exact absurd (by exact_mod_cast hn) hi
  · exact absurd (by exact_mod_cast hi) hn
  · have hLInt : ((v % 2 ^ (8 * b) : Nat) : Int) < ((2 ^ (8 * b) : Nat) : Int) := by
      exact_mod_cast hL
    have hBleInt : ((2 ^ (8 * b) : Nat) : Int) ≤ ((2 ^ 64 : Nat) : Int) := by
      exact_mod_cast hBle
    have hL0 : (0 : Int) ≤ ((v % 2 ^ (8 * b) : Nat) : Int) := Int.natCast_nonneg _
    have hstep : (((v % 2 ^ (8 * b) : Nat) : Int) - ((2 ^ (8 * b) : Nat) : Int))
        % ((2 ^ 64 : Nat) : Int)
        = ((v % 2 ^ (8 * b) : Nat) : Int) - ((2 ^ (8 * b) : Nat) : Int)
          + ((2 ^ 64 : Nat) : Int) := by
      calc (((v % 2 ^ (8 * b) : Nat) : Int) - ((2 ^ (8 * b) : Nat) : Int))
            % ((2 ^ 64 : Nat) : Int)
          = (((v % 2 ^ (8 * b) : Nat) : Int) - ((2 ^ (8 * b) : Nat) : Int)
              + ((2 ^ 64 : Nat) : Int) * 1) % ((2 ^ 64 : Nat) : Int) :=
            (Int.add_mul_emod_self_left _ _ _).symm
        _ = ((v % 2 ^ (8 * b) : Nat) : Int) - ((2 ^ (8 * b) : Nat) : Int)
              + ((2 ^ 64 : Nat) : Int) * 1 :=
            Int.emod_eq_of_lt (by linarith) (by linarith)
        _ = ((v % 2 ^ (8 * b) : Nat) : Int) - ((2 ^ (8 * b) : Nat) : Int)
              + ((2 ^ 64 : Nat) : Int) := by ring
    have harr : ((v % 2 ^ (8 * b) : Nat) : Int) - ((2 ^ (8 * b) : Nat) : Int)
        + ((2 ^ 64 : Nat) : Int)
        = ((2 ^ 64 - 2 ^ (8 * b) + v % 2 ^ (8 * b) : Nat) : Int) := by
      rw [Nat.cast_add, Nat.cast_sub hBle]
      ring
    rw [hstep, harr, Int.toNat_natCast]

/-- The cast chain at 8 bits. -/
theorem sign_cast_one (v : Nat) : sign_cast 1 v = sext_spec 8 v :=
  sign_cast_eq_sext_spec 1 v (by norm_num) (by norm_num)

/-- The cast chain at 16 bits. -/
theorem sign_cast_two (v : Nat) : sign_cast 2 v = sext_spec 16 v :=
  sign_cast_eq_sext_spec 2 v (by norm_num) (by norm_num)

/-- The cast chain at 32 bits. -/
theorem sign_cast_four (v : Nat) : sign_cast 4 v = sext_spec 32 v :=
  sign_cast_eq_sext_spec 4 v (by norm_num) (by norm_num)

/-- `uniq_adjacent` keeps the head of the list. -/
theorem uniq_adjacent_head {α : Type} (eq : α → α → Bool) (a : α) (l : List α) :
    ∃ l2, uniq_adjacent eq (a :: l) = a :: l2 := by
  induction l generalizing a with
  | nil => exact ⟨[], by simp [uniq_adjacent]⟩
  | cons y rest ih =>
    by_cases h : eq a y = true
    · obtain ⟨l2, hl2⟩ := ih a
      exact ⟨l2, by simp [uniq_adjacent, h, hl2]⟩
    · exact ⟨uniq_adjacent eq (y :: rest), by simp [uniq_adjacent, h]⟩

/-- After `uniq_adjacent`, no two adjacent survivors are equal. -/
theorem uniq_adjacent_chain {α : Type} (eq : α → α → Bool) (l : List α) :
    (uniq_adjacent eq l).Chain' (fun a b => eq a b = false) := by
  refine uniq_adjacent.induct eq
    (fun l => (uniq_adjacent eq l).Chain' (fun a b => eq a b = false)) ?_ ?_ ?_ ?_ l
  · simp [uniq_adjacent]
  · intro x
    simp [uniq_adjacent]
  · intro x y rest h ih
    simpa [uniq_adjacent, h] using ih
  · intro x y rest h ih
    obtain ⟨l2, hl2⟩ := uniq_adjacent_head eq y rest
    rw [hl2] at ih
    have hb : eq x y = false := by simpa using h
    simp only [uniq_adjacent, hb, Bool.false_eq_true, if_false, hl2]
    exact List.chain'_cons.mpr ⟨hb, ih⟩

/-- Claim C6: the comparison path sorts under the lexicographic
`(type, arg1, arg2)` order (a total, transitive comparator) and drops
adjacent duplicates under the pc-ignoring equality; each record is written
as `type` then `arg1`, `arg2` sign-extended by size class (1 byte, 2 bytes,
4 bytes as two's complement; 8 bytes unchanged), one 32-bit word per
argument below size 8 and two little-endian words (low, high) per argument
at size 8. -/
theorem kcov_comparison_correct :
    (∀ a b : kcov_comparison_t, kcov_lt a b = true ↔
        (a.type < b.type ∨ (a.type = b.type ∧
          (a.arg1 < b.arg1 ∨ (a.arg1 = b.arg1 ∧ a.arg2 < b.arg2)))))
    ∧ (∀ a b : kcov_comparison_t, kcov_eq a b = true ↔
        (a.type = b.type ∧ a.arg1 = b.arg1 ∧ a.arg2 = b.arg2))
    ∧ (∀ l : List kcov_comparison_t,
        (l.mergeSort kcov_le).Pairwise (fun a b => kcov_le a b = true)
        ∧ (l.mergeSort kcov_le).Perm l
        ∧ (uniq_adjacent kcov_eq l).Chain' (fun a b => kcov_eq a b = false))
    ∧ (∀ c : kcov_comparison_t,
        (c.type &&& KCOV_CMP_SIZE_MASK = KCOV_CMP_SIZE1 →
          kcov_write c = [c.type % 2 ^ 32,
            sext_spec 8 c.arg1 % 2 ^ 32, sext_spec 8 c.arg2 % 2 ^ 32])
        ∧ (c.type &&& KCOV_CMP_SIZE_MASK = KCOV_CMP_SIZE2 →
          kcov_write c = [c.type % 2 ^ 32,
            sext_spec 16 c.arg1 % 2 ^ 32, sext_spec 16 c.arg2 % 2 ^ 32])
        ∧ (c.type &&& KCOV_CMP_SIZE_MASK = KCOV_CMP_SIZE4 →
          kcov_write c = [c.type % 2 ^ 32,
            sext_spec 32 c.arg1 % 2 ^ 32, sext_spec 32 c.arg2 % 2 ^ 32])
        ∧ (c.type &&& KCOV_CMP_SIZE_MASK = KCOV_CMP_SIZE8 →
          kcov_write c = [c.type % 2 ^ 32,
            c.arg1 % 2 ^ 32, (c.arg1 >>> 32) % 2 ^ 32,
            c.arg2 % 2 ^ 32, (c.arg2 >>> 32) % 2 ^ 32])) := by
  refine ⟨kcov_lt_iff, kcov_eq_iff, fun l =>
    ⟨List.sorted_mergeSort kcov_le_trans kcov_le_total l,
     List.mergeSort_perm l kcov_le,
     uniq_adjacent_chain kcov_eq l⟩,
    fun c => ⟨fun h => ?_, fun h => ?_, fun h => ?_, fun h => ?_⟩⟩
  · simp [kcov_write, h, KCOV_CMP_SIZE1, KCOV_CMP_SIZE2, KCOV_CMP_SIZE4,
      KCOV_CMP_SIZE8, sign_cast_one]
  · simp [kcov_write, h, KCOV_CMP_SIZE1, KCOV_CMP_SIZE2, KCOV_CMP_SIZE4,
      KCOV_CMP_SIZE8, sign_cast_two]
  · simp [kcov_write, h, KCOV_CMP_SIZE1, KCOV_CMP_SIZE2, KCOV_CMP_SIZE4,
      KCOV_CMP_SIZE8, sign_cast_four]
  · simp [kcov_write, h, KCOV_CMP_SIZE1, KCOV_CMP_SIZE2, KCOV_CMP_SIZE4,
      KCOV_CMP_SIZE8]

/-- Witness for C6: the record `{type = 1 (size-1, const), arg1 = 0xfe,
arg2 = 1}` is written with `0xfe` sign-extended to 32 bits. -/
theorem kcov_comparison_correct_witness :
    kcov_write ⟨1, 0xfe, 1, 99⟩ =
      [1 % 2 ^ 32, sext_spec 8 0xfe % 2 ^ 32, sext_spec 8 1 % 2 ^ 32] :=
  (kcov_comparison_correct.2.2.2 ⟨1, 0xfe, 1, 99⟩).1 (by decide)

/-- Witness for C2: the hash of 5 agrees with the spec mix, and a two-entry
coverage list with a repeated edge emits the deduplicated signals. -/
theorem signal_emission_correct_witness :
    hash 5 = hash_spec 5
    ∧ write_signals (fun _ => 0) 0 [5, 5] =
        ((dedup_filter (fun _ => 0) (sig_sequence 0 [5, 5])).1,
         (dedup_filter (fun _ => 0) (sig_sequence 0 [5, 5])).1.length,
         (dedup_filter (fun _ => 0) (sig_sequence 0 [5, 5])).2) :=
  ⟨signal_emission_correct.2 5 (by norm_num),
   signal_emission_correct.1 (fun _ => 0) 0 [5, 5]⟩

end Syz
